import Mathlib

/-!
Verification of the callable-wrapper core of fontbakery
(`Lib/fontbakery/callable.py`): argument-contract derivation
(`mandatoryArgs` / `optionalArgs` / `args`), docstring-derived
description/documentation (`get_doc_desc`, `FontBakeryCheck.__init__`),
condition registration with `functools.cached_property` memoization
(`condition`), global-namespace injection (`inject_globals`) and the
`Disabled` marker.
-/

/-- Python values, as far as this module observes them.  The argument walks
only test whether a default is present (`inspect.Parameter.empty`), so a
small universe with decidable equality suffices. -/
inductive PyVal where
  | int : Int → PyVal
  | str : String → PyVal
  | bool : Bool → PyVal
  | none : PyVal
deriving DecidableEq, Repr

/-- The five parameter kinds of `inspect.Parameter`. -/
inductive ParamKind where
  | positionalOnly
  | positionalOrKeyword
  | varPositional
  | keywordOnly
  | varKeyword
deriving DecidableEq, Repr

/-- `param.kind in (inspect.Parameter.POSITIONAL_OR_KEYWORD,
inspect.Parameter.POSITIONAL_ONLY)`, the membership test both walks make. -/
def ParamKind.isPositional : ParamKind → Bool
  | .positionalOnly => true
  | .positionalOrKeyword => true
  | _ => false

/-- One entry of `inspect.signature(...).parameters`: a name, a kind, and a
default (`Option.none` models `inspect.Parameter.empty`). -/
structure Param where
  name : String
  kind : ParamKind
  default : Option PyVal
deriving DecidableEq, Repr

/-- The loop body of `FontbakeryCallable.mandatoryArgs` (callable.py lines
47-67): walk the parameters in declaration order, `break` at the first
parameter that has a default or is not positional, collect the names. -/
def mandatoryArgsOf : List Param → List String
  | [] => []
  | p :: ps =>
    if p.default.isSome || !p.kind.isPositional then []
    else p.name :: mandatoryArgsOf ps

/-- The loop body of `FontbakeryCallable.optionalArgs` (callable.py lines
69-93): `continue` past parameters without a default, `break` at the first
non-positional parameter that has a default, collect the rest. -/
def optionalArgsOf : List Param → List String
  | [] => []
  | p :: ps =>
    if p.default.isNone then optionalArgsOf ps
    else if !p.kind.isPositional then []
    else p.name :: optionalArgsOf ps

/-- A `FontbakeryCallable` as the claims observe it: the identity metadata
copied by `update_wrapper` (`__name__`), the wrapped function's signature
(what `inspect.signature(self, follow_wrapped=True)` returns), and the
wrapped function's `__globals__` mapping. -/
structure FontbakeryCallable where
  name : String
  sig : List Param
  globals : String → Option PyVal

/-- `FontbakeryCallable.mandatoryArgs` (cached property, lines 47-67). -/
def FontbakeryCallable.mandatoryArgs (c : FontbakeryCallable) : List String :=
  mandatoryArgsOf c.sig

/-- `FontbakeryCallable.optionalArgs` (cached property, lines 69-93). -/
def FontbakeryCallable.optionalArgs (c : FontbakeryCallable) : List String :=
  optionalArgsOf c.sig

/-- `FontbakeryCallable.args = self.mandatoryArgs + self.optionalArgs`
(cached property, lines 43-45). -/
def FontbakeryCallable.args (c : FontbakeryCallable) : List String :=
  c.mandatoryArgs ++ c.optionalArgs

/-- Restatement of the spec's words for the mandatory walk: the contiguous
prefix of parameters that have no default and are positional, in
declaration order; everything from the first parameter with a default or
of any other kind on is excluded. -/
def mandatoryArgsSpec (sig : List Param) : List String :=
  (sig.takeWhile fun p => p.default.isNone && p.kind.isPositional).map Param.name

/-- The example signature `(a, b, c=1, d=2)` of the spec. -/
def exampleSig : List Param :=
  [⟨"a", .positionalOrKeyword, Option.none⟩,
   ⟨"b", .positionalOrKeyword, Option.none⟩,
   ⟨"c", .positionalOrKeyword, some (.int 1)⟩,
   ⟨"d", .positionalOrKeyword, some (.int 2)⟩]

/-- A wrapper around an invocable with the example signature. -/
def exampleCallable : FontbakeryCallable :=
  ⟨"example_check", exampleSig, fun _ => Option.none⟩

theorem mandatoryArgsOf_eq_spec (sig : List Param) :
    mandatoryArgsOf sig = mandatoryArgsSpec sig := by
  induction sig with
  | nil => rfl
  | cons p ps ih =>
    rcases hd : p.default with _ | v
    · by_cases hk : p.kind.isPositional
      · simp only [mandatoryArgsOf, mandatoryArgsSpec, List.takeWhile_cons, hd,
          hk, Option.isSome_none, Bool.false_or, Bool.not_true, Option.isNone_none,
          Bool.true_and, if_true, if_false, reduceIte, List.map_cons]
        simpa [mandatoryArgsSpec] using ih
      · simp [mandatoryArgsOf, mandatoryArgsSpec, List.takeWhile_cons, hd, hk]
    · simp [mandatoryArgsOf, mandatoryArgsSpec, List.takeWhile_cons, hd]

/-- Claim C1: for every wrapped invocable, `mandatoryArgs` is the contiguous
prefix of the signature's parameters, in declaration order, that have no
default and are positional; the walk stops at the first parameter with a
default or of any other kind and all remaining parameters are excluded.
In particular for signature `(a, b, c=1, d=2)`, `mandatoryArgs == (a, b)`
and `optionalArgs == (c, d)`. -/
theorem mandatoryArgs_contiguous_prefix :
    (∀ c : FontbakeryCallable, c.mandatoryArgs = mandatoryArgsSpec c.sig) ∧
    exampleCallable.mandatoryArgs = ["a", "b"] ∧
    exampleCallable.optionalArgs = ["c", "d"] := by
  refine ⟨fun c => mandatoryArgsOf_eq_spec c.sig, by decide, by decide⟩

/-- Claim C2: for every wrapped invocable with signature `(a, *, b)` (`b`
keyword-only without a default), `mandatoryArgs == (a,)` and
`optionalArgs == ()`: the keyword-only parameter appears in neither
sequence even though it has no default. -/
theorem keywordOnly_excluded_from_both (na nb : String)
    (g : String → Option PyVal) (fname : String) :
    (FontbakeryCallable.mk fname
        [⟨na, .positionalOrKeyword, Option.none⟩,
         ⟨nb, .keywordOnly, Option.none⟩] g).mandatoryArgs = [na] ∧
    (FontbakeryCallable.mk fname
        [⟨na, .positionalOrKeyword, Option.none⟩,
         ⟨nb, .keywordOnly, Option.none⟩] g).optionalArgs = [] :=
  ⟨rfl, rfl⟩

theorem mem_mandatoryArgsOf {n : String} :
    ∀ {ps : List Param}, n ∈ mandatoryArgsOf ps →
      ∃ p, p ∈ ps ∧ p.name = n ∧ p.default = Option.none
  | [], h => absurd h (by simp [mandatoryArgsOf])
  | p :: ps, h => by
    by_cases hc : (p.default.isSome || !p.kind.isPositional) = true
    · rw [mandatoryArgsOf, if_pos hc] at h
      exact absurd h (by simp)
    · rw [mandatoryArgsOf, if_neg hc] at h
      simp only [Bool.or_eq_true, not_or, Bool.not_eq_true] at hc
      rcases List.mem_cons.mp h with h | h
      · exact ⟨p, List.mem_cons_self p ps, h.symm,
          Option.not_isSome_iff_eq_none.mp (by simp [hc.1])⟩
      · obtain ⟨q, hq, hn, hd⟩ := mem_mandatoryArgsOf h
        exact ⟨q, List.mem_cons_of_mem p hq, hn, hd⟩

theorem mem_optionalArgsOf {n : String} :
    ∀ {ps : List Param}, n ∈ optionalArgsOf ps →
      ∃ p, p ∈ ps ∧ p.name = n ∧ p.default.isSome
  | [], h => absurd h (by simp [optionalArgsOf])
  | p :: ps, h => by
    by_cases hn : p.default.isNone = true
    · rw [optionalArgsOf, if_pos hn] at h
      obtain ⟨q, hq, hqn, hd⟩ := mem_optionalArgsOf h
      exact ⟨q, List.mem_cons_of_mem p hq, hqn, hd⟩
    · rw [optionalArgsOf, if_neg hn] at h
      have hs : p.default.isSome = true := by
        rcases hd : p.default with _ | v
        · exact absurd (by simp [hd]) hn
        · rfl
      by_cases hk : (!p.kind.isPositional) = true
      · rw [if_pos hk] at h
        exact absurd h (by simp)
      · rw [if_neg hk] at h
        rcases List.mem_cons.mp h with h | h
        · exact ⟨p, List.mem_cons_self p ps, h.symm, hs⟩
        · obtain ⟨q, hq, hqn, hd⟩ := mem_optionalArgsOf h
          exact ⟨q, List.mem_cons_of_mem p hq, hqn, hd⟩

/-- Claim C3: for every constructed wrapper, `args` is the concatenation of
`mandatoryArgs` followed by `optionalArgs`, and (parameter names of a valid
Python signature being pairwise distinct) no name occurs in both. -/
theorem args_eq_mandatory_append_optional (c : FontbakeryCallable)
    (hnodup : (c.sig.map Param.name).Nodup) :
    c.args = c.mandatoryArgs ++ c.optionalArgs ∧
    ∀ n ∈ c.mandatoryArgs, n ∉ c.optionalArgs := by
  refine ⟨rfl, fun n hm ho => ?_⟩
  obtain ⟨p, hp, hpn, hpd⟩ := mem_mandatoryArgsOf hm
  obtain ⟨q, hq, hqn, hqd⟩ := mem_optionalArgsOf ho
  have hpq : p = q :=
    List.inj_on_of_nodup_map hnodup hp hq (hpn.trans hqn.symm)
  rw [hpq] at hpd
  rw [hpd] at hqd
  simp at hqd

/-- Witness for C3 at the example wrapper with signature `(a, b, c=1, d=2)`. -/
theorem args_eq_mandatory_append_optional_witness :
    exampleCallable.args = exampleCallable.mandatoryArgs ++ exampleCallable.optionalArgs ∧
    ∀ n ∈ exampleCallable.mandatoryArgs, n ∉ exampleCallable.optionalArgs :=
  args_eq_mandatory_append_optional exampleCallable (by decide)

/-- Truthiness of a Python value that is either `None` or a `str`:
`None` and the empty string are falsy. -/
def pyTruthy : Option String → Bool
  | Option.none => false
  | some s => !s.isEmpty

/-- Python `doc.split("\n")` on the underlying characters: splitting on
every newline, so `n` newlines yield `n + 1` lines (the empty string
yields one empty line). -/
def splitCharsOnNl : List Char → List String
  | [] => [""]
  | c :: cs =>
    if c = '\n' then "" :: splitCharsOnNl cs
    else
      match splitCharsOnNl cs with
      | [] => [String.mk [c]]
      | s :: rest => String.mk (c :: s.data) :: rest

/-- Python `doc.split("\n")`. -/
def splitLines (doc : String) : List String :=
  splitCharsOnNl doc.data

/-- `get_doc_desc(func, description, documentation)` (callable.py lines
105-126) on the cleaned docstring `doc` (`inspect.getdoc(func) or ""`).
When `description` is falsy it is rebound to the leading non-empty lines
joined with spaces and those lines are consumed; leading empty lines are
then dropped; when `documentation` is falsy and lines remain, it is rebound
to their join (or `None` if that join is empty). -/
def get_doc_desc (doc : String) (description documentation : Option String) :
    String × Option String :=
  let doclines := splitLines doc
  let derive := !pyTruthy description
  let desc : String :=
    if derive then
      String.intercalate " " (doclines.takeWhile fun l => !l.isEmpty)
    else description.getD ""
  let doclines := if derive then doclines.dropWhile (fun l => !l.isEmpty) else doclines
  let doclines := doclines.dropWhile String.isEmpty
  let documentation :=
    if !pyTruthy documentation && !doclines.isEmpty then
      let j := String.intercalate "\n" doclines
      if j.isEmpty then Option.none else some j
    else documentation
  (desc, documentation)

/-- Restatement of the spec's words: the derived description is the join,
with single spaces, of all leading non-empty lines of the docstring up to
(not including) the first empty line. -/
def descFromDoc (doc : String) : String :=
  String.intercalate " " ((splitLines doc).takeWhile fun l => !l.isEmpty)

/-- Restatement of the spec's words: the derived documentation is the
remainder of the docstring after the leading block, with leading empty
lines stripped and internal line breaks preserved; it is absent (not an
empty string) when that remainder is empty. -/
def docFromDoc (doc : String) : Option String :=
  let rest :=
    (((splitLines doc).dropWhile fun l => !l.isEmpty).dropWhile String.isEmpty)
  if rest.isEmpty then Option.none else some (String.intercalate "\n" rest)

theorem intercalate_go_length (s : String) :
    ∀ (t : List String) (acc : String),
      acc.length ≤ (String.intercalate.go acc s t).length
  | [], _ => Nat.le_refl _
  | a :: as, acc => by
    have h := intercalate_go_length s as (acc ++ s ++ a)
    have h2 : acc.length ≤ (acc ++ s ++ a).length := by
      simp only [String.length_append]
      omega
    exact Nat.le_trans h2 h

theorem intercalate_head_not_empty {a : String} (t : List String)
    (ha : a.isEmpty = false) :
    (String.intercalate "\n" (a :: t)).isEmpty = false := by
  have h1 : a.length ≤ (String.intercalate "\n" (a :: t)).length := by
    rw [String.intercalate]
    exact intercalate_go_length "\n" t a
  have ha2 : a ≠ "" := by
    intro h
    rw [h] at ha
    simp [String.isEmpty] at ha
  have ha3 : 0 < a.length := by
    rcases Nat.eq_zero_or_pos a.length with h | h
    · exact absurd (String.ext (List.eq_nil_of_length_eq_zero h)) ha2
    · exact h
  rw [Bool.eq_false_iff]
  intro h
  have hempty : String.intercalate "\n" (a :: t) = "" :=
    (String.isEmpty_iff _).mp h
  have h0 : ("" : String).length = 0 := rfl
  rw [hempty, h0] at h1
  omega

theorem dropWhile_isEmpty_head (l : List String) :
    ∀ a t, l.dropWhile String.isEmpty = a :: t → a.isEmpty = false := by
  induction l with
  | nil => intro a t h; simp at h
  | cons x xs ih =>
    intro a t h
    by_cases hx : String.isEmpty x
    · rw [List.dropWhile_cons_of_pos hx] at h
      exact ih a t h
    · rw [List.dropWhile_cons_of_neg hx] at h
      cases h
      exact Bool.eq_false_iff.mpr hx

theorem get_doc_desc_fst (doc : String) (description documentation : Option String)
    (h : pyTruthy description = false) :
    (get_doc_desc doc description documentation).1 = descFromDoc doc := by
  simp [get_doc_desc, descFromDoc, h]

theorem pyTruthy_none : pyTruthy Option.none = false := rfl

theorem pyTruthy_some_empty : pyTruthy (some "") = false := rfl

theorem doc_branch (r : List String)
    (hhead : ∀ a t, r = a :: t → a.isEmpty = false) :
    (if !r.isEmpty then
       (if (String.intercalate "\n" r).isEmpty then Option.none
        else some (String.intercalate "\n" r))
     else Option.none) =
    (if r.isEmpty then Option.none
     else some (String.intercalate "\n" r)) := by
  rcases r with _ | ⟨a, t⟩
  · rfl
  · have hj := intercalate_head_not_empty t (hhead a t rfl)
    simp [hj]

theorem get_doc_desc_snd (doc : String) (description : Option String)
    (h : pyTruthy description = false) :
    (get_doc_desc doc description Option.none).2 = docFromDoc doc := by
  simp only [get_doc_desc, docFromDoc, h, pyTruthy_none, Bool.not_false,
    Bool.true_and, if_true, reduceIte]
  exact doc_branch _ (fun a t hc => dropWhile_isEmpty_head _ a t hc)

/-- Claim C4: with no explicit description, the description is the join,
with single spaces, of all leading non-empty lines of the docstring up to
(not including) the first empty line; with no explicit documentation, the
documentation is the remainder after that block with leading empty lines
stripped and internal line breaks preserved, absent (not an empty string)
when the remainder is empty.  In particular the docstring
`"Short desc.\n\nLong body line 1.\nLong body line 2."` yields description
`"Short desc."` and documentation
`"Long body line 1.\nLong body line 2."`. -/
theorem docstring_derivation :
    (∀ doc : String,
      get_doc_desc doc Option.none Option.none = (descFromDoc doc, docFromDoc doc)) ∧
    get_doc_desc "Short desc.\n\nLong body line 1.\nLong body line 2."
        Option.none Option.none =
      ("Short desc.", some "Long body line 1.\nLong body line 2.") := by
  refine ⟨fun doc => ?_, by decide⟩
  have h1 := get_doc_desc_fst doc Option.none Option.none rfl
  have h2 := get_doc_desc_snd doc Option.none rfl
  exact Prod.ext h1 h2

/-- A `FontBakeryCheck` as built by `FontBakeryCheck.__init__` (callable.py
lines 129-204): the wrapper identity (`__name__` copied by
`update_wrapper`, the signature) together with the metadata fields the
constructor assigns. -/
structure FontBakeryCheck where
  name : String
  sig : List Param
  id : String
  conditions : List String
  rationale : Option String
  description : String
  documentation : Option String
  configs : Option (List String)
  proposal : Option String
  experimental : Bool
  severity : Option Nat
deriving DecidableEq, Repr

/-- `FontBakeryCheck.__init__`: wraps `checkfunc` (here: its `__name__`,
cleaned docstring and signature), derives description/documentation via
`get_doc_desc`, defaults `conditions` to `[]`, and raises
`TypeError("{} needs a description.".format(type(self).__name__))` —
the message interpolates the class name — when the resulting description
is still falsy, so that no instance is produced. -/
def FontBakeryCheck.init (checkfuncName checkfuncDoc : String)
    (sig : List Param) (id : String)
    (description documentation : Option String)
    (conditions : Option (List String)) (rationale : Option String)
    (proposal : Option String) (experimental : Bool) (severity : Option Nat)
    (configs : Option (List String)) : Except String FontBakeryCheck :=
  let dd := get_doc_desc checkfuncDoc description documentation
  if dd.1.isEmpty then
    Except.error "FontBakeryCheck needs a description."
  else
    Except.ok
      { name := checkfuncName, sig := sig, id := id,
        conditions := conditions.getD [], rationale := rationale,
        description := dd.1, documentation := dd.2, configs := configs,
        proposal := proposal, experimental := experimental,
        severity := severity }

/-- Python `needle in hay` for strings, on the underlying characters. -/
def occursInChars (needle : List Char) : List Char → Bool
  | [] => needle.isPrefixOf []
  | c :: cs => needle.isPrefixOf (c :: cs) || occursInChars needle cs

/-- Python `needle in hay` for strings. -/
def occursIn (needle hay : String) : Bool :=
  occursInChars needle.data hay.data

/-- Counterexample to claim C5 as stated: constructing a check from an
invocable named `my_check` with an empty docstring and `description=None`
raises `TypeError("FontBakeryCheck needs a description.")`; the message
names the check class, and the defining invocable's name `my_check` does
not occur in it. -/
theorem description_error_names_class_not_invocable :
    FontBakeryCheck.init "my_check" "" [] "com.example/my_check"
        Option.none Option.none Option.none Option.none Option.none false
        Option.none Option.none =
      Except.error "FontBakeryCheck needs a description." ∧
    occursIn "my_check" "FontBakeryCheck needs a description." = false := by
  exact ⟨rfl, by decide⟩

/-- Claim C5 (amended): for every construction where, after derivation
from the docstring, the description is still empty, construction fails
with `TypeError("FontBakeryCheck needs a description.")` — a definition
error naming the check class, not the defining invocable — and no
definition is produced. -/
theorem empty_description_raises (checkfuncName checkfuncDoc : String)
    (sig : List Param) (id : String)
    (description documentation : Option String)
    (conds : Option (List String)) (rationale proposal : Option String)
    (experimental : Bool) (severity : Option Nat)
    (configs : Option (List String))
    (h : (get_doc_desc checkfuncDoc description documentation).1.isEmpty = true) :
    FontBakeryCheck.init checkfuncName checkfuncDoc sig id description
        documentation conds rationale proposal experimental severity configs =
      Except.error "FontBakeryCheck needs a description." := by
  simp [FontBakeryCheck.init, h]

/-- Witness for the amended C5: an invocable with an empty docstring and no
explicit description. -/
theorem empty_description_raises_witness :
    FontBakeryCheck.init "com_example_check" "" [] "com.example/x"
        Option.none Option.none Option.none Option.none Option.none false
        Option.none Option.none =
      Except.error "FontBakeryCheck needs a description." :=
  empty_description_raises "com_example_check" "" [] "com.example/x"
    Option.none Option.none Option.none Option.none Option.none false
    Option.none Option.none (by decide)

/-- Claim C9: an explicit empty-string description is treated exactly like
an absent one — the description is derived from the docstring rather than
failing immediately, and construction fails only when the docstring-derived
description is also empty. -/
theorem empty_string_description_falls_back (checkfuncName checkfuncDoc : String)
    (sig : List Param) (id : String) (documentation : Option String)
    (conds : Option (List String)) (rationale proposal : Option String)
    (experimental : Bool) (severity : Option Nat)
    (configs : Option (List String)) :
    FontBakeryCheck.init checkfuncName checkfuncDoc sig id (some "")
        documentation conds rationale proposal experimental severity configs =
      FontBakeryCheck.init checkfuncName checkfuncDoc sig id Option.none
        documentation conds rationale proposal experimental severity configs ∧
    (FontBakeryCheck.init checkfuncName checkfuncDoc sig id (some "")
        documentation conds rationale proposal experimental severity
        configs).isOk = !(descFromDoc checkfuncDoc).isEmpty := by
  have hdd : get_doc_desc checkfuncDoc (some "") documentation =
      get_doc_desc checkfuncDoc Option.none documentation := by
    simp only [get_doc_desc, pyTruthy_some_empty, pyTruthy_none,
      Bool.not_false, reduceIte]
  constructor
  · simp [FontBakeryCheck.init, hdd]
  · have hfst := get_doc_desc_fst checkfuncDoc (some "") documentation rfl
    simp only [FontBakeryCheck.init, hfst]
    by_cases hde : (descFromDoc checkfuncDoc).isEmpty
    · simp [hde, Except.isOk, Except.toBool]
    · simp [hde, Except.isOk, Except.toBool]

/-- A namespace instance: its `__dict__`, mapping attribute names to the
values stored on the instance. -/
structure Inst where
  dict : String → Option PyVal

/-- A `functools.cached_property` descriptor as `condition` builds it: the
wrapped compute function and the attribute name set by `__set_name__`. -/
structure CachedProperty where
  func : Inst → PyVal
  attrname : String

/-- A namespace class: its attribute slots holding the descriptors that
`condition`'s decorator installs with `setattr`. -/
structure PyClass where
  attrs : String → Option CachedProperty

/-- One read of a `functools.cached_property` descriptor on an instance
(the semantics of `cached_property.__get__`): return the value cached in
`instance.__dict__` under the attribute name if present, otherwise call
the wrapped function once, store the result in `instance.__dict__`, and
return it.  The third component counts how often the wrapped function was
invoked during this read. -/
def CachedProperty.get (prop : CachedProperty) (inst : Inst) :
    PyVal × Inst × Nat :=
  match inst.dict prop.attrname with
  | some v => (v, inst, 0)
  | Option.none =>
    let v := prop.func inst
    (v, ⟨fun k => if k = prop.attrname then some v else inst.dict k⟩, 1)

/-- `n` successive reads of the descriptor on the same instance: the list
of returned values, the final instance, and the total number of times the
wrapped function was invoked. -/
def CachedProperty.getTimes (prop : CachedProperty) :
    Nat → Inst → List PyVal × Inst × Nat
  | 0, inst => ([], inst, 0)
  | n + 1, inst =>
    let r1 := prop.get inst
    let rs := CachedProperty.getTimes prop n r1.2.1
    (r1.1 :: rs.1, rs.2.1, r1.2.2 + rs.2.2)

/-- The decorator returned by `condition(cls)` (callable.py lines 211-221),
applied to a function: it wraps the function in `cached_property`, calls
`__set_name__` with the function's `__name__`, installs it on the class
with `setattr`, and falls off the end — so its return value, which
decorator syntax rebinds the function's name to, is `None`. -/
def condition_decorator (cls : PyClass) (funcName : String)
    (func : Inst → PyVal) : PyClass × Option (Inst → PyVal) :=
  let prop : CachedProperty := { func := func, attrname := funcName }
  (⟨fun k => if k = funcName then some prop else cls.attrs k⟩, Option.none)

theorem cachedProperty_getTimes_cached (prop : CachedProperty) (v : PyVal) :
    ∀ (n : Nat) (inst : Inst), inst.dict prop.attrname = some v →
      prop.getTimes n inst = (List.replicate n v, inst, 0)
  | 0, inst, _ => rfl
  | n + 1, inst, h => by
    have h1 : prop.get inst = (v, inst, 0) := by
      rw [CachedProperty.get, h]
    rw [CachedProperty.getTimes, h1,
      cachedProperty_getTimes_cached prop v n inst h]
    rfl

/-- Claim C6: for every condition function registered onto a namespace
class and every instance whose dict does not yet hold the attribute,
reading the attribute any number of times invokes the underlying compute
function at most once, and every read returns the value of the first
read. -/
theorem condition_memoizes (cls : PyClass) (funcName : String)
    (func : Inst → PyVal) (inst : Inst) (n : Nat)
    (hfresh : inst.dict funcName = Option.none) :
    ∃ prop : CachedProperty,
      ((condition_decorator cls funcName func).1).attrs funcName = some prop ∧
      (prop.getTimes n inst).1 = List.replicate n (func inst) ∧
      (prop.getTimes n inst).2.2 ≤ 1 := by
  refine ⟨{ func := func, attrname := funcName }, by simp [condition_decorator], ?_, ?_⟩
  all_goals
    cases n with
    | zero => simp [CachedProperty.getTimes]
    | succ m =>
      have h1 : CachedProperty.get ⟨func, funcName⟩ inst =
          (func inst,
           ⟨fun k => if k = funcName then some (func inst) else inst.dict k⟩, 1) := by
        rw [CachedProperty.get, hfresh]
      have h2 := cachedProperty_getTimes_cached ⟨func, funcName⟩ (func inst) m
        ⟨fun k => if k = funcName then some (func inst) else inst.dict k⟩
        (by simp)
      rw [CachedProperty.getTimes, h1, h2]
      simp [List.replicate]

/-- Witness for C6: the condition `isVariableFont` on a fresh instance,
read twice. -/
theorem condition_memoizes_witness :
    ∃ prop : CachedProperty,
      ((condition_decorator ⟨fun _ => Option.none⟩ "isVariableFont"
          (fun _ => PyVal.bool true)).1).attrs "isVariableFont" = some prop ∧
      (prop.getTimes 2 ⟨fun _ => Option.none⟩).1 =
        List.replicate 2 ((fun _ => PyVal.bool true) (⟨fun _ => Option.none⟩ : Inst)) ∧
      (prop.getTimes 2 ⟨fun _ => Option.none⟩).2.2 ≤ 1 :=
  condition_memoizes ⟨fun _ => Option.none⟩ "isVariableFont"
    (fun _ => PyVal.bool true) ⟨fun _ => Option.none⟩ 2 rfl

/-- Claim C10: the decorator produced by `condition` returns `None` after
installing the memoized property on the class under the function's name;
decorator syntax therefore rebinds the definition-site name to `None`,
while the function stays reachable through the class attribute. -/
theorem condition_decorator_returns_none (cls : PyClass) (funcName : String)
    (func : Inst → PyVal) :
    (condition_decorator cls funcName func).2 = Option.none ∧
    ((condition_decorator cls funcName func).1).attrs funcName =
      some { func := func, attrname := funcName } := by
  exact ⟨rfl, by simp [condition_decorator]⟩

/-- Python `dict.update(new)` on a name-to-value mapping: every key of
`new` is (re)bound to its value, entries applied left to right. -/
def dictUpdate (d : String → Option PyVal) (new : List (String × PyVal)) :
    String → Option PyVal :=
  new.foldl (fun d p => fun k => if k = p.1 then some p.2 else d k) d

/-- `FontbakeryCallable.inject_globals` (callable.py lines 101-102):
`self.__wrapped__.__globals__.update(new_globals)`. -/
def FontbakeryCallable.inject_globals (c : FontbakeryCallable)
    (new : List (String × PyVal)) : FontbakeryCallable :=
  { c with globals := dictUpdate c.globals new }

/-- Name resolution in the wrapped invocable's execution context: on
invocation a free name in the body resolves to its entry in the
function's `__globals__`. -/
def FontbakeryCallable.resolveGlobal (c : FontbakeryCallable) (k : String) :
    Option PyVal :=
  c.globals k

theorem dictUpdate_not_mem :
    ∀ (new : List (String × PyVal)) (d : String → Option PyVal) (k : String),
      (∀ p ∈ new, p.1 ≠ k) → dictUpdate d new k = d k
  | [], _, _, _ => rfl
  | p :: rest, d, k, h => by
    have hp : p.1 ≠ k := h p (List.mem_cons_self p rest)
    have hrec := dictUpdate_not_mem rest
      (fun q => if q = p.1 then some p.2 else d q) k
      (fun q hq => h q (List.mem_cons_of_mem p hq))
    rw [dictUpdate] at hrec ⊢
    rw [List.foldl_cons, hrec]
    simp [Ne.symm hp]

theorem dictUpdate_mem :
    ∀ (new : List (String × PyVal)) (d : String → Option PyVal)
      (k : String) (v : PyVal), (k, v) ∈ new → (new.map Prod.fst).Nodup →
      dictUpdate d new k = some v
  | [], _, _, _, h, _ => absurd h (List.not_mem_nil _)
  | p :: rest, d, k, v, h, hnodup => by
    rcases List.mem_cons.mp h with h | h
    · have hk : p.1 ∉ rest.map Prod.fst := by
        rw [List.map_cons, List.nodup_cons] at hnodup
        exact hnodup.1
      have hner : ∀ q ∈ rest, q.1 ≠ k := by
        intro q hq hqk
        have hp1 : p.1 = k := by rw [← h]
        have h1 : q.1 ∈ List.map Prod.fst rest := List.mem_map_of_mem Prod.fst hq
        rw [hqk, ← hp1] at h1
        exact hk h1
      rw [dictUpdate, List.foldl_cons]
      have := dictUpdate_not_mem rest
        (fun q => if q = p.1 then some p.2 else d q) k hner
      rw [dictUpdate] at this
      rw [this, ← h]
      simp
    · rw [List.map_cons, List.nodup_cons] at hnodup
      have := dictUpdate_mem rest
        (fun q => if q = p.1 then some p.2 else d q) k v h hnodup.2
      rw [dictUpdate] at this
      rw [dictUpdate, List.foldl_cons, this]

/-- Claim C7: after `inject_globals(new)` each injected name resolves, in
the wrapped invocable's execution context, to its mapped value on
subsequent invocation, while `mandatoryArgs`, `optionalArgs` and hence
`args` are unchanged.  (Python dict keys are pairwise distinct, hence the
hypothesis on `new`.) -/
theorem inject_globals_resolves (c : FontbakeryCallable)
    (new : List (String × PyVal)) (hkeys : (new.map Prod.fst).Nodup) :
    (∀ p ∈ new, (c.inject_globals new).resolveGlobal p.1 = some p.2) ∧
    (c.inject_globals new).mandatoryArgs = c.mandatoryArgs ∧
    (c.inject_globals new).optionalArgs = c.optionalArgs ∧
    (c.inject_globals new).args = c.args := by
  refine ⟨fun p hp => ?_, rfl, rfl, rfl⟩
  exact dictUpdate_mem new c.globals p.1 p.2 hp hkeys

/-- Witness for C7: injecting `{"hello": 42}` into the example wrapper. -/
theorem inject_globals_resolves_witness :
    (∀ p ∈ [("hello", PyVal.int 42)],
      (exampleCallable.inject_globals [("hello", PyVal.int 42)]).resolveGlobal p.1 =
        some p.2) ∧
    (exampleCallable.inject_globals [("hello", PyVal.int 42)]).mandatoryArgs =
      exampleCallable.mandatoryArgs ∧
    (exampleCallable.inject_globals [("hello", PyVal.int 42)]).optionalArgs =
      exampleCallable.optionalArgs ∧
    (exampleCallable.inject_globals [("hello", PyVal.int 42)]).args =
      exampleCallable.args :=
  inject_globals_resolves exampleCallable [("hello", PyVal.int 42)] (by decide)

/-- An invocable instrumented with an invocation counter: `calls` counts
how many times it has been executed. -/
structure TracedFunc where
  fn : PyVal → PyVal
  calls : Nat

/-- Executing a traced invocable returns its result and bumps the
counter. -/
def TracedFunc.call (t : TracedFunc) (x : PyVal) : PyVal × TracedFunc :=
  (t.fn x, { t with calls := t.calls + 1 })

/-- The `Disabled` marker (callable.py lines 237-239): `__init__` stores
the invocable in `self.func` and does nothing else. -/
structure Disabled (F : Type) where
  func : F

/-- `disable(func)` (callable.py lines 242-243). -/
def disable {F : Type} (f : F) : Disabled F :=
  Disabled.mk f

/-- Claim C8: constructing a `Disabled` marker around any invocable never
invokes it — the invocation counter after construction equals the counter
before — and unwrapping the marker returns the original invocable
unchanged. -/
theorem disable_roundtrip_without_invocation (t : TracedFunc) :
    (disable t).func = t ∧ (disable t).func.calls = t.calls :=
  ⟨rfl, rfl⟩
